import Mathlib

/-!
# Shareholder Data Management Platform — verification of the dual-mode query engine

Shallow embedding of the repository's core: the Express backend's `/comp`
endpoint (`buildWhere`, parameter normalization, SQL construction), the
IndexedDB helper (`makeKey`, `upsertRows`, `getCountFromIDB`,
`getPageFromIDB`, `rowMatches`), and the React App's page-load effect,
sync loop and Excel-export loop.

Rows are modelled as association lists of (field name, string value);
stores as association lists keyed by the derived row key.  JavaScript
`undefined` is modelled by `Option`; `parseInt` returning `NaN` is
modelled by `Option Int` with `none` standing for `NaN`.
-/

namespace SDMP

/-! ## Character / string primitives (models of the JS string operations used) -/

abbrev Chars := List Char

/-- Model of `String.prototype.toLowerCase` on a single character
(ASCII case mapping, which is all the source data exercises). -/
def lowerChar (c : Char) : Char :=
  if 'A' ≤ c ∧ c ≤ 'Z' then Char.ofNat (c.toNat + 32) else c

def lowerChars (s : Chars) : Chars := s.map lowerChar

def lowerStr (s : String) : String := ⟨lowerChars s.data⟩

/-- `startsWithChars pat s`: `s` begins with `pat`. -/
def startsWithChars : Chars → Chars → Bool
  | [], _ => true
  | _ :: _, [] => false
  | c :: cs, d :: ds => c == d && startsWithChars cs ds

/-- Model of `String.prototype.includes`: `pat` occurs contiguously in `hay`. -/
def substrChars (pat : Chars) : Chars → Bool
  | [] => startsWithChars pat []
  | c :: t => startsWithChars pat (c :: t) || substrChars pat t

def jsIncludes (hay pat : String) : Bool := substrChars pat.data hay.data

/-- JS whitespace (the varieties relevant to the dataset). -/
def isWsChar (c : Char) : Bool := c == ' ' || c == '\t' || c == '\n' || c == '\r'

/-- Model of `String.prototype.trim`. -/
def jsTrim (s : String) : String :=
  ⟨((s.data.dropWhile isWsChar).reverse.dropWhile isWsChar).reverse⟩

/-- Model of `parseInt(s, 10)`: skip leading whitespace, optional sign, then
the longest digit prefix; `none` models `NaN` (no digits found). -/
def parseIntJS (s : String) : Option Int :=
  let t := s.data.dropWhile isWsChar
  let (neg, t) : Bool × Chars :=
    match t with
    | '-' :: r => (true, r)
    | '+' :: r => (false, r)
    | r => (false, r)
  let digits := t.takeWhile (fun c => c.isDigit)
  if digits.isEmpty then none
  else
    let n : Nat := digits.foldl (fun a c => a * 10 + (c.toNat - '0'.toNat)) 0
    some (if neg then -(n : Int) else (n : Int))

/-! ## Rows, filters, and the shared filter predicate -/

/-- A dataset row: field name ↦ string value (JS object). -/
abbrev Row := List (String × String)

/-- JS property access `r?.[k]`, `undefined` as `none`. -/
def jsGet (r : Row) (k : String) : Option String :=
  (r.find? (fun p => p.1 == k)).map (·.2)

/-- `String(r?.[k] ?? "")`. -/
def valOf (r : Row) (k : String) : String := (jsGet r k).getD ""

/-- The known-column allow-list `COLS` of `src/Backend/index.js` (also
`BASE_COLS` of the frontend App). -/
def COLS : List String :=
  [ "Investor_First_Name"
  , "Investor_Middle_Name"
  , "Investor_Last_Name"
  , "Father_or_Husband_First Name"
  , "Father_or_Husband_Middle_Name"
  , "Father_or_Husband_Last_Name"
  , "Address"
  , "Folio_Dpid"
  , "Company_Name"
  , "No_of_Shares"
  , "Valuation"
  , "Case" ]

abbrev Filters := List (String × String)

/-- `rowMatches` from the IndexedDB helper: every filter entry with a truthy
pattern must occur, case-insensitively, in the row's value for that key. -/
def rowMatches (r : Row) (filters : Filters) : Bool :=
  filters.all (fun kv =>
    kv.2 == "" || jsIncludes (lowerStr (valOf r kv.1)) (lowerStr kv.2))

/-- `buildWhere` from the backend: for each known column whose query value is
truthy and non-blank after trimming, emit a `LIKE %val%` condition. -/
def buildWhere (query : Filters) : List (String × String) :=
  COLS.filterMap (fun c =>
    match jsGet query c with
    | none => none
    | some v => if v ≠ "" ∧ jsTrim v ≠ "" then some (c, v) else none)

/-- SQL `LIKE` pattern matching (`%` any sequence, `_` any one character),
the semantics of the external MySQL engine evaluating the conditions that
`buildWhere` emits.  Modelled from the spec: the engine itself is not part
of the repository. -/
def likeMatch (pat text : Chars) : Bool :=
  match pat, text with
  | [], t => t.isEmpty
  | p :: ps, t =>
    if p = '%' then
      likeMatch ps t ||
        (match t with
         | [] => false
         | _ :: ts => likeMatch (p :: ps) ts)
    else
      match t with
      | [] => false
      | d :: ds => (p = '_' || p == d) && likeMatch ps ds
termination_by pat.length + text.length
decreasing_by all_goals simp_arith

/-- Modelled from the spec: evaluation of one `` `col` LIKE '%val%' ``
condition by the external SQL engine under a case-insensitive collation. -/
def likeContains (val text : String) : Bool :=
  likeMatch ('%' :: lowerChars val.data ++ ['%']) (lowerChars text.data)

/-- Row membership in the Remote adapter's result set: all conditions emitted
by `buildWhere` hold for the row. -/
def remoteRowMatches (query : Filters) (r : Row) : Bool :=
  (buildWhere query).all (fun cv => likeContains cv.2 (valOf r cv.1))

/-! ## Sorting

Both adapters sort the full matching set before slicing.  The comparator of
`getPageFromIDB` string-compares the selected column's values (the
`typeof === "number"` branch never fires in this embedding, whose values
are strings); `localeCompare` — and, modelled from the spec, the external
SQL engine's `ORDER BY` — is rendered as lexicographic order on character
codes. -/

def lexLe : Chars → Chars → Bool
  | [], _ => true
  | _ :: _, [] => false
  | c :: cs, d :: ds =>
    if c.toNat < d.toNat then true
    else if d.toNat < c.toNat then false
    else lexLe cs ds

def valLe (sortBy sortDir : String) (a b : Row) : Bool :=
  let va := (jsGet a sortBy).getD ""
  let vb := (jsGet b sortBy).getD ""
  if lowerStr sortDir == "asc" then lexLe va.data vb.data else lexLe vb.data va.data

def insertLe (le : α → α → Bool) (x : α) : List α → List α
  | [] => [x]
  | y :: ys => if le x y then x :: y :: ys else y :: insertLe le x ys

def sortLe (le : α → α → Bool) : List α → List α
  | [] => []
  | x :: xs => insertLe le x (sortLe le xs)

/-- The full-scan sort applied by both adapters to the matching set. -/
def sortRows (sortBy sortDir : String) (rows : List Row) : List Row :=
  sortLe (valLe sortBy sortDir) rows

/-! ## Local Cache Store (IndexedDB object store, keyPath `rowKey`) -/

/-- The persistent store: one entry per row key. -/
abbrev Store := List (String × Row)

def storeKeys (st : Store) : List String := st.map (·.1)

def storeRows (st : Store) : List Row := st.map (·.2)

/-- `IDBObjectStore.put`: overwrite the entry with the same key, else append. -/
def idbPut (st : Store) (k : String) (v : Row) : Store :=
  if st.any (fun p => p.1 == k) then
    st.map (fun p => if p.1 == k then (k, v) else p)
  else st ++ [(k, v)]

def idbLookup (st : Store) (k : String) : Option Row :=
  (st.find? (fun p => p.1 == k)).map (·.2)

/-- `makeKey` from the IndexedDB helper: prefer `id`, else `Folio_Dpid`,
else the composite `company-first-last-idx` (with `||` falsy fallbacks). -/
def makeKey (r : Row) (idx : Nat) : String :=
  match jsGet r "id" with
  | some v => v
  | none =>
    match jsGet r "Folio_Dpid" with
    | some v => v
    | none =>
      let comp := if valOf r "Company_Name" = "" then "row" else valOf r "Company_Name"
      comp ++ "-" ++ valOf r "Investor_First_Name" ++ "-" ++
        valOf r "Investor_Last_Name" ++ "-" ++ toString idx

/-- `{...rows[i], rowKey: makeKey(rows[i], i)}`: the stored record is the row
with its `rowKey` field set. -/
def withRowKey (r : Row) (k : String) : Row :=
  r.filter (fun p => p.1 ≠ "rowKey") ++ [("rowKey", k)]

/-- The keyed records that one `upsertRows(rows)` call writes, in order. -/
def keyedRecords (rows : List Row) : List (String × Row) :=
  rows.mapIdx (fun i r => (makeKey r i, withRowKey r (makeKey r i)))

/-- Apply a sequence of keyed writes (`tx.store.put` per record). -/
def idbReplay (st : Store) (ps : List (String × Row)) : Store :=
  ps.foldl (fun s kv => idbPut s kv.1 kv.2) st

/-- `upsertRows` from the IndexedDB helper. -/
def upsertRows (st : Store) (rows : List Row) : Store :=
  if rows.isEmpty then st
  else idbReplay st (keyedRecords rows)

/-- `getCountFromIDB`: cursor over every stored row, incrementing a counter
for each row matching the filters. -/
def getCountFromIDB (st : Store) (filters : Filters) : Nat :=
  (storeRows st).foldl (fun n r => if rowMatches r filters then n + 1 else n) 0

/-- `getPageFromIDB`: full scan collecting matching rows, sort, then slice
the requested window; returns `(rows, totalCount)`. -/
def getPageFromIDB (st : Store) (page pageSize : Nat) (sortBy sortDir : String)
    (filters : Filters) : List Row × Nat :=
  let all := (storeRows st).filter (fun r => rowMatches r filters)
  let sorted := sortRows sortBy sortDir all
  let slice := (sorted.drop ((page - 1) * pageSize)).take pageSize
  (slice, all.length)

/-! ## Remote adapter: the `/comp` handler and its query -/

/-- The backend's sort-column validation:
`COLS.includes(req.query.sortBy) ? req.query.sortBy : "Company_Name"`. -/
def validSortBy (sortBy : String) : String :=
  if sortBy ∈ COLS then sortBy else "Company_Name"

/-- `req.query.sortDir?.toLowerCase() === "desc" ? "DESC" : "ASC"`. -/
def normSortDir (sortDir : Option String) : String :=
  if sortDir.map lowerStr = some "desc" then "DESC" else "ASC"

/-- A `/comp` request after the handler's numeric normalization
(`page`, `pageSize` already integral — the validated path). -/
structure CompReq where
  page : Nat
  pageSize : Nat
  sortBy : String
  sortDir : String
  query : Filters

/-- The SQL text the handler interpolates (placeholders `?` carried for the
parameterized values).  Only the validated sort column and direction are
spliced into the string. -/
def compSqlText (r : CompReq) : String :=
  let conds := (buildWhere r.query).map (fun cv => "`" ++ cv.1 ++ "` LIKE ?")
  "SELECT * FROM comp " ++
    (if conds.isEmpty then "" else "WHERE " ++ String.intercalate " AND " conds) ++
    " ORDER BY `" ++ validSortBy r.sortBy ++ "` " ++ normSortDir (some r.sortDir) ++
    " LIMIT ? OFFSET ?"

/-- Modelled from the spec: the external SQL engine executing the `/comp`
query over its table — filter by the `buildWhere` conditions, order by the
validated column, then `LIMIT pageSize OFFSET (page-1)*pageSize`. -/
def execComp (table : List Row) (r : CompReq) : List Row :=
  let matched := table.filter (fun row => remoteRowMatches r.query row)
  let sorted := sortRows (validSortBy r.sortBy)
    (if normSortDir (some r.sortDir) = "DESC" then "desc" else "asc") matched
  (sorted.drop ((r.page - 1) * r.pageSize)).take r.pageSize

/-! ## Request normalization (`/comp` handler, lines 380‑387)

`parseInt` yields `NaN` on non-numeric input, and `Math.max`/`Math.min`
propagate `NaN`; `none` models `NaN` throughout. -/

def jsMax (a : Option Int) (b : Int) : Option Int := a.map (fun x => max x b)

def jsMin (a : Option Int) (b : Int) : Option Int := a.map (fun x => min x b)

/-- `Math.min(Math.max(parseInt(req.query.pageSize ?? "20", 10), 1), 10000)`. -/
def normPageSize (raw : Option String) : Option Int :=
  jsMin (jsMax (parseIntJS (raw.getD "20")) 1) 10000

/-- `Math.max(parseInt(req.query.page ?? "1", 10), 1)`. -/
def normPage (raw : Option String) : Option Int :=
  jsMax (parseIntJS (raw.getD "1")) 1

/-! ## The page-load effect and the Page Result Cache (App component) -/

abbrev PageCache := List (String × List Row)

def cacheLookup (cache : PageCache) (k : String) : Option (List Row) :=
  (cache.find? (fun p => p.1 == k)).map (·.2)

def cachePut (cache : PageCache) (k : String) (v : List Row) : PageCache :=
  if cache.any (fun p => p.1 == k) then
    cache.map (fun p => if p.1 == k then (k, v) else p)
  else cache ++ [(k, v)]

/-- The visible session state touched by the page-load effect. -/
structure PageState where
  rows : List Row
  totalCount : Nat
  errorMsg : String
  pageCache : PageCache

/-- One run of the page-load effect.  `fetch` is the outcome of the count and
data phases against the selected adapter (`.error` models a rejected await
reaching the catch block).  On a cache hit (online only) the cached rows are
shown and no fetch is consulted; on success the result is cached (online);
on failure the message is surfaced and rows/totalCount are cleared, the
cache left untouched. -/
def loadPage (st : PageState) (offline : Bool) (cacheKey : String)
    (fetch : Except String (Nat × List Row)) : PageState :=
  if offline = false ∧ (cacheLookup st.pageCache cacheKey).isSome then
    { st with rows := (cacheLookup st.pageCache cacheKey).getD [], errorMsg := "" }
  else
    match fetch with
    | .ok tr =>
      { st with
        errorMsg := ""
        totalCount := tr.1
        rows := tr.2
        pageCache := if offline then st.pageCache else cachePut st.pageCache cacheKey tr.2 }
    | .error e =>
      { st with
        errorMsg := if e == "" then "Failed to fetch" else e
        rows := []
        totalCount := 0 }

/-! ## Sync Engine (`handleSyncToDevice`) -/

/-- The chunked sync loop (`bulkSize = 10000`): while `fetched < total`,
fetch page `p`, stop on an empty batch, upsert, advance, and stop when a
chunk comes back short.  Returns the final store, the `fetched` counter the
completion message reports, and the length of every chunk fetched. -/
def syncLoop (fetchPage : Nat → List Row) (total : Nat) (st : Store)
    (fetched p : Nat) (log : List Nat) : Store × Nat × List Nat :=
  if h1 : fetched < total then
    if h2 : (fetchPage p).length = 0 then (st, fetched, log ++ [0])
    else if _h3 : (fetchPage p).length < 10000 then
      (upsertRows st (fetchPage p), fetched + (fetchPage p).length,
        log ++ [(fetchPage p).length])
    else
      syncLoop fetchPage total (upsertRows st (fetchPage p))
        (fetched + (fetchPage p).length) (p + 1) (log ++ [(fetchPage p).length])
  else (st, fetched, log)
termination_by total - fetched
decreasing_by simp_wf; omega

/-- `handleSyncToDevice`: clear the store, count, return early on zero,
else run the chunk loop from page 1. -/
def handleSyncToDevice (fetchPage : Nat → List Row) (total : Nat) :
    Store × Nat × List Nat :=
  if total = 0 then ([], 0, [])
  else syncLoop fetchPage total [] 0 1 []

/-! ## Export Engine (`handleDownloadExcel`) -/

/-- JS `Set` insertion (insertion-ordered, first occurrence wins). -/
def insertNew (hs : List String) (k : String) : List String :=
  if k ∈ hs then hs else hs ++ [k]

def addRowKeys (hs : List String) (r : Row) : List String :=
  r.foldl (fun h p => insertNew h p.1) hs

def addKeys (hs : List String) (batch : List Row) : List String :=
  batch.foldl addRowKeys hs

/-- The offline export drain (`chunk = 2000`): while `got < total`, page
through `getPageFromIDB`, stopping on an empty or short chunk.  Collects the
accumulated rows.  (The offline branch never touches `headersSeen`.) -/
def exportIDBLoop (st : Store) (filters : Filters) (sortBy sortDir : String)
    (total : Nat) (p got : Nat) : List Row :=
  if _h1 : got < total then
    if _h2 : ((getPageFromIDB st p 2000 sortBy sortDir filters).1).length = 0 then []
    else if _h3 : ((getPageFromIDB st p 2000 sortBy sortDir filters).1).length < 2000 then
      (getPageFromIDB st p 2000 sortBy sortDir filters).1
    else
      (getPageFromIDB st p 2000 sortBy sortDir filters).1 ++
        exportIDBLoop st filters sortBy sortDir total (p + 1)
          (got + ((getPageFromIDB st p 2000 sortBy sortDir filters).1).length)
  else []
termination_by total - got
decreasing_by simp_wf; omega

/-- The online export drain (`chunk = 2000`, `while (true)`): page through
`/comp` against the remote matching set `table` (modelled from the spec:
the server's paged response is the sorted matching set windowed by
`LIMIT/OFFSET`), accumulating rows and every observed column key. -/
def exportRemoteLoop (table : List Row) (p : Nat) (hs : List String) :
    List Row × List String :=
  if h2 : ((table.drop ((p - 1) * 2000)).take 2000).length = 0 then ([], hs)
  else if h3 : ((table.drop ((p - 1) * 2000)).take 2000).length < 2000 then
    ((table.drop ((p - 1) * 2000)).take 2000,
      addKeys hs ((table.drop ((p - 1) * 2000)).take 2000))
  else
    ((table.drop ((p - 1) * 2000)).take 2000 ++
        (exportRemoteLoop table (p + 1)
          (addKeys hs ((table.drop ((p - 1) * 2000)).take 2000))).1,
      (exportRemoteLoop table (p + 1)
        (addKeys hs ((table.drop ((p - 1) * 2000)).take 2000))).2)
termination_by table.length + 2 - p
decreasing_by
  all_goals
    simp only [List.length_take, List.length_drop] at h3
    simp_wf
    omega

/-- Header normalization: `Array.from(new Set([...BASE_COLS, ...headersSeen]))`. -/
def exportHeaders (headersSeen : List String) : List String :=
  (COLS ++ headersSeen).foldl insertNew []

/-- One artifact row: `headers.forEach(h => obj[h] = r?.[h] ?? "")`. -/
def normalizeRow (headers : List String) (r : Row) : List (String × String) :=
  headers.map (fun h => (h, (jsGet r h).getD ""))

/-- The export artifact: ordered headers plus one normalized row per
accumulated row. -/
structure Artifact where
  headers : List String
  sheet : List (List (String × String))

/-- `handleDownloadExcel`, offline branch: total from `getCountFromIDB`,
drain the local store, normalize against the final header list
(`headersSeen` stays at `BASE_COLS` — the offline loop never adds keys). -/
def handleDownloadExcelOffline (st : Store) (filters : Filters)
    (sortBy sortDir : String) : Artifact :=
  let total := getCountFromIDB st filters
  let exportRows := exportIDBLoop st filters sortBy sortDir total 1 0
  let headers := exportHeaders COLS
  { headers := headers, sheet := exportRows.map (normalizeRow headers) }

/-- `handleDownloadExcel`, online branch: drain the remote matching set,
accumulating observed keys beyond the fixed schema. -/
def handleDownloadExcelRemote (table : List Row) : Artifact :=
  let res := exportRemoteLoop table 1 COLS
  let headers := exportHeaders res.2
  { headers := headers, sheet := res.1.map (normalizeRow headers) }

/-- The export engine threaded over the session's stores: it reads them and
returns them as they were (the handler performs no store or cache write). -/
def exportRun (st : Store) (cache : PageCache) (offline : Bool) (filters : Filters)
    (sortBy sortDir : String) (table : List Row) :
    Artifact × Store × PageCache :=
  (if offline then handleDownloadExcelOffline st filters sortBy sortDir
   else handleDownloadExcelRemote table, st, cache)

/-! # Helper lemmas -/

theorem foldl_count {α : Type} (p : α → Bool) (l : List α) (n : Nat) :
    l.foldl (fun m a => if p a then m + 1 else m) n = n + (l.filter p).length := by
  induction l generalizing n with
  | nil => simp
  | cons a t ih =>
    by_cases h : p a
    · simp [List.filter_cons, h, ih]
      omega
    · simp [List.filter_cons, h, ih]

theorem any_key_iff (st : Store) (k : String) :
    (st.any (fun p => p.1 == k)) = true ↔ k ∈ storeKeys st := by
  rw [List.any_eq_true]
  unfold storeKeys
  constructor
  · rintro ⟨p, hp, hpk⟩
    exact List.mem_map.mpr ⟨p, hp, by simpa using hpk⟩
  · intro h
    obtain ⟨p, hp, hpk⟩ := List.mem_map.mp h
    exact ⟨p, hp, by simp [hpk]⟩

theorem find?_mapReplace (st : Store) (k k2 : String) (v : Row) :
    (st.map (fun p => if p.1 == k then (k, v) else p)).find? (fun p => p.1 == k2) =
      if k2 = k then (st.find? (fun p => p.1 == k)).map (fun _ => (k, v))
      else st.find? (fun p => p.1 == k2) := by
  rw [List.find?_map]
  by_cases hk2 : k2 = k
  · subst hk2
    have hfn : ((fun p : String × Row => p.1 == k2) ∘
        fun p => if p.1 == k2 then (k2, v) else p) = fun p => p.1 == k2 := by
      funext p
      by_cases h : p.1 = k2 <;> simp [h]
    rw [hfn, if_pos rfl]
    cases hf : st.find? (fun p => p.1 == k2) with
    | none => rfl
    | some q =>
      have hq := List.find?_some hf
      have hq2 : q.1 = k2 := by simpa using hq
      simp [hq2]
  · have hk2s : ¬ k = k2 := fun hh => hk2 hh.symm
    have hfn : ((fun p : String × Row => p.1 == k2) ∘
        fun p => if p.1 == k then (k, v) else p) = fun p => p.1 == k2 := by
      funext p
      by_cases h : p.1 = k <;> simp [h, hk2s]
    rw [hfn, if_neg hk2]
    cases hf : st.find? (fun p => p.1 == k2) with
    | none => rfl
    | some q =>
      have hq := List.find?_some hf
      have hq2 : q.1 = k2 := by simpa using hq
      have hqk : ¬ q.1 = k := by
        rw [hq2]
        exact hk2
      simp [hqk]

theorem idbLookup_idbPut (st : Store) (k k2 : String) (v : Row) :
    idbLookup (idbPut st k v) k2 = if k2 = k then some v else idbLookup st k2 := by
  unfold idbPut idbLookup
  by_cases hmem : st.any (fun p => p.1 == k) = true
  · rw [if_pos hmem, find?_mapReplace]
    by_cases hk2 : k2 = k
    · rw [if_pos hk2, if_pos hk2]
      cases hfind : st.find? (fun p => p.1 == k) with
      | none =>
        obtain ⟨p, hp, hpk⟩ := List.any_eq_true.mp hmem
        rw [List.find?_eq_none] at hfind
        exact absurd hpk (by simpa using hfind p hp)
      | some q => rfl
    · rw [if_neg hk2, if_neg hk2]
  · rw [if_neg hmem, List.find?_append]
    by_cases hk2 : k2 = k
    · subst hk2
      have hnone : st.find? (fun p => p.1 == k2) = none := by
        rw [List.find?_eq_none]
        intro p hp hpk
        exact hmem (List.any_eq_true.mpr ⟨p, hp, hpk⟩)
      rw [if_pos rfl, hnone]
      simp
    · rw [if_neg hk2]
      have hsing : List.find? (fun p => (p.1 == k2)) [(k, v)] = none := by
        rw [List.find?_cons_of_neg]
        · rfl
        · simp
          exact Ne.symm hk2
      rw [hsing]
      simp

theorem mem_storeKeys_iff_lookup (st : Store) (k : String) :
    k ∈ storeKeys st ↔ (idbLookup st k).isSome := by
  unfold idbLookup storeKeys
  constructor
  · intro h
    obtain ⟨p, hp, hpk⟩ := List.mem_map.mp h
    have hs : (st.find? (fun p => p.1 == k)).isSome :=
      List.find?_isSome.mpr ⟨p, hp, by simp [hpk]⟩
    cases hf : st.find? (fun p => p.1 == k) with
    | none => rw [hf] at hs; simp at hs
    | some q => rfl
  · intro h
    cases hf : st.find? (fun p => p.1 == k) with
    | none => rw [hf] at h; simp at h
    | some q =>
      have hq := List.find?_some hf
      have hmem := List.mem_of_find?_eq_some hf
      exact List.mem_map.mpr ⟨q, hmem, by simpa using hq⟩

theorem storeKeys_idbPut_mem (st : Store) (k : String) (v : Row)
    (h : k ∈ storeKeys st) : storeKeys (idbPut st k v) = storeKeys st := by
  unfold idbPut
  rw [if_pos ((any_key_iff st k).mpr h)]
  unfold storeKeys
  rw [List.map_map]
  refine List.map_congr_left ?_
  intro p _
  by_cases hpk : p.1 = k
  · simp [hpk]
  · simp [hpk]

theorem storeKeys_idbPut_new (st : Store) (k : String) (v : Row)
    (h : k ∉ storeKeys st) : storeKeys (idbPut st k v) = storeKeys st ++ [k] := by
  unfold idbPut
  rw [if_neg (fun hc => h ((any_key_iff st k).mp hc))]
  simp [storeKeys]

theorem nodup_storeKeys_idbPut (st : Store) (k : String) (v : Row)
    (h : (storeKeys st).Nodup) : (storeKeys (idbPut st k v)).Nodup := by
  by_cases hmem : k ∈ storeKeys st
  · rw [storeKeys_idbPut_mem st k v hmem]; exact h
  · rw [storeKeys_idbPut_new st k v hmem]
    simp [List.nodup_append, h, hmem]

/-- The value the write sequence `ps` leaves under key `k` (last write wins),
`none` if `ps` never writes `k`. -/
def writeWins (ps : List (String × Row)) (k : String) : Option Row :=
  (ps.reverse.find? (fun q => q.1 == k)).map (·.2)

theorem idbLookup_idbReplay (st : Store) (ps : List (String × Row)) (k : String) :
    idbLookup (idbReplay st ps) k = (writeWins ps k).or (idbLookup st k) := by
  induction ps generalizing st with
  | nil => simp [idbReplay, writeWins]
  | cons q ps ih =>
    have step : idbReplay st (q :: ps) = idbReplay (idbPut st q.1 q.2) ps := rfl
    rw [step, ih, idbLookup_idbPut]
    unfold writeWins
    rw [show (q :: ps).reverse = ps.reverse ++ [q] from by simp, List.find?_append]
    cases hf : ps.reverse.find? (fun r => r.1 == k) with
    | some r => simp [hf]
    | none =>
      by_cases hqk : q.1 = k
      · simp [hf, hqk]
      · have h1 : ¬ k = q.1 := fun h => hqk h.symm
        have hb : (q.1 == k) = false := by simp [hqk]
        simp [hf, hb, h1]

theorem storeKeys_idbReplay_of_sub (st : Store) (ps : List (String × Row))
    (h : ∀ q ∈ ps, q.1 ∈ storeKeys st) :
    storeKeys (idbReplay st ps) = storeKeys st := by
  induction ps generalizing st with
  | nil => rfl
  | cons q ps ih =>
    have step : idbReplay st (q :: ps) = idbReplay (idbPut st q.1 q.2) ps := rfl
    rw [step]
    have hq : q.1 ∈ storeKeys st := h q (by simp)
    have hkeys : storeKeys (idbPut st q.1 q.2) = storeKeys st :=
      storeKeys_idbPut_mem st q.1 q.2 hq
    rw [ih (idbPut st q.1 q.2) (fun r hr => hkeys ▸ h r (by simp [hr])), hkeys]

theorem mem_storeKeys_idbReplay (st : Store) (ps : List (String × Row))
    (q : String × Row) (h : q ∈ ps) : q.1 ∈ storeKeys (idbReplay st ps) := by
  rw [mem_storeKeys_iff_lookup, idbLookup_idbReplay]
  have hex : (ps.reverse.find? (fun r => r.1 == q.1)).isSome :=
    List.find?_isSome.mpr ⟨q, by simp [h], by simp⟩
  cases hf : ps.reverse.find? (fun r => r.1 == q.1) with
  | none => rw [hf] at hex; simp at hex
  | some r => simp [writeWins, hf]

theorem nodup_storeKeys_idbReplay (st : Store) (ps : List (String × Row))
    (h : (storeKeys st).Nodup) : (storeKeys (idbReplay st ps)).Nodup := by
  induction ps generalizing st with
  | nil => exact h
  | cons q ps ih => exact ih (idbPut st q.1 q.2) (nodup_storeKeys_idbPut st q.1 q.2 h)

/-- Two stores with duplicate-free, identical key sequences and identical
lookups are equal. -/
theorem store_ext (S T : Store) (hkeys : storeKeys S = storeKeys T)
    (hnd : (storeKeys S).Nodup) (hlook : ∀ k, idbLookup S k = idbLookup T k) :
    S = T := by
  induction S generalizing T with
  | nil =>
    cases T with
    | nil => rfl
    | cons q T => simp [storeKeys] at hkeys
  | cons p S ih =>
    cases T with
    | nil => simp [storeKeys] at hkeys
    | cons q T =>
      simp only [storeKeys, List.map_cons, List.cons.injEq] at hkeys
      obtain ⟨hpq, htail⟩ := hkeys
      have hval : p.2 = q.2 := by
        have := hlook p.1
        unfold idbLookup at this
        rw [List.find?_cons_of_pos _ (by simp), List.find?_cons_of_pos _ (by simp [hpq])]
          at this
        simpa using this
      have hnd' : (storeKeys S).Nodup := by
        simp only [storeKeys, List.map_cons, List.nodup_cons] at hnd
        exact hnd.2
      have hhead : p.1 ∉ storeKeys S := by
        simp only [storeKeys, List.map_cons, List.nodup_cons] at hnd
        exact hnd.1
      have htl : ∀ k, idbLookup S k = idbLookup T k := by
        intro k
        by_cases hk : k = p.1
        · subst hk
          have hS : idbLookup S p.1 = none := by
            cases hs : idbLookup S p.1 with
            | none => rfl
            | some r =>
              exact absurd ((mem_storeKeys_iff_lookup S p.1).mpr (by simp [hs])) hhead
          have hT : idbLookup T p.1 = none := by
            cases ht : idbLookup T p.1 with
            | none => rfl
            | some r =>
              have hmem : p.1 ∈ storeKeys T :=
                (mem_storeKeys_iff_lookup T p.1).mpr (by simp [ht])
              unfold storeKeys at hmem
              rw [← htail] at hmem
              exact absurd hmem hhead
          rw [hS, hT]
        · have hlk := hlook k
          have hp1 : (p.1 == k) = false := by
            simp
            exact fun h => hk h.symm
          have hq1 : (q.1 == k) = false := by
            rw [← hpq]
            exact hp1
          unfold idbLookup at hlk ⊢
          rw [List.find?_cons_of_neg _ (by simp [hp1]),
            List.find?_cons_of_neg _ (by simp [hq1])] at hlk
          exact hlk
      have htt := ih T htail hnd' htl
      have hpq2 : p = q := Prod.ext_iff.mpr ⟨hpq, hval⟩
      rw [htt, hpq2]

/-- Replaying the same write sequence a second time is a no-op. -/
theorem idbReplay_idempotent (st : Store) (ps : List (String × Row))
    (h : (storeKeys st).Nodup) :
    idbReplay (idbReplay st ps) ps = idbReplay st ps := by
  have hsub : ∀ q ∈ ps, q.1 ∈ storeKeys (idbReplay st ps) :=
    fun q hq => mem_storeKeys_idbReplay st ps q hq
  have hkeys : storeKeys (idbReplay (idbReplay st ps) ps) =
      storeKeys (idbReplay st ps) :=
    storeKeys_idbReplay_of_sub _ ps hsub
  have hnd : (storeKeys (idbReplay st ps)).Nodup := nodup_storeKeys_idbReplay st ps h
  refine store_ext _ _ hkeys (hkeys ▸ hnd) ?_
  intro k
  rw [idbLookup_idbReplay, idbLookup_idbReplay st ps k]
  cases hw : writeWins ps k with
  | some v => simp
  | none => simp [idbLookup_idbReplay, hw]

/-- The sync chunk loop stops only when `fetched` reaches `total` or the
last chunk fetched was shorter than the requested 10,000 rows. -/
theorem syncLoop_exit (g : Nat → List Row) (total : Nat) :
    ∀ (s0 : Store) (f0 p0 : Nat) (log : List Nat),
    total ≤ (syncLoop g total s0 f0 p0 log).2.1 ∨
      ∃ last, ((syncLoop g total s0 f0 p0 log).2.2).getLast? = some last ∧
        last < 10000 := by
  refine syncLoop.induct g total
    (motive := fun s0 f0 p0 log =>
      total ≤ (syncLoop g total s0 f0 p0 log).2.1 ∨
        ∃ last, ((syncLoop g total s0 f0 p0 log).2.2).getLast? = some last ∧
          last < 10000) ?_ ?_ ?_ ?_
  · intro st fetched p log h1 h2
    rw [syncLoop, dif_pos h1, dif_pos h2]
    right
    exact ⟨0, by simp, by norm_num⟩
  · intro st fetched p log h1 h2 h3
    rw [syncLoop, dif_pos h1, dif_neg h2, dif_pos h3]
    right
    exact ⟨(g p).length, by simp, h3⟩
  · intro st fetched p log h1 h2 h3 ih
    rw [syncLoop, dif_pos h1, dif_neg h2, dif_neg h3]
    exact ih
  · intro st fetched p log h1
    rw [syncLoop, dif_neg h1]
    left
    exact Nat.le_of_not_lt h1

/-! ## LIKE-matching analysis (for comparing the two adapters) -/

/-- `p` contains no SQL LIKE wildcard. -/
def noWildChars (p : Chars) : Bool := p.all (fun c => !(c == '%' || c == '_'))

theorem lowerChar_toNat_of_upper (c : Char) (h : 'A' ≤ c ∧ c ≤ 'Z') :
    (lowerChar c).toNat = c.toNat + 32 := by
  have hv : (c.toNat + 32).isValidChar := by
    rcases h with ⟨h1, h2⟩
    have : c.toNat ≤ 90 := h2
    left
    omega
  unfold lowerChar
  rw [if_pos h]
  simp only [Char.ofNat, Char.toNat] at *
  rw [dif_pos hv]
  simp only [Char.ofNatAux, UInt32.toNat, BitVec.toNat_ofNatLt]

theorem lowerChar_ne (c w : Char) (hw : w.toNat < 97) (hc : c ≠ w) :
    lowerChar c ≠ w := by
  by_cases h : 'A' ≤ c ∧ c ≤ 'Z'
  · intro heq
    have ht : (lowerChar c).toNat = c.toNat + 32 := lowerChar_toNat_of_upper c h
    rw [heq] at ht
    have h1 : 65 ≤ c.toNat := h.1
    omega
  · unfold lowerChar
    rw [if_neg h]
    exact hc

theorem noWild_lower (p : Chars) (h : noWildChars p = true) :
    noWildChars (lowerChars p) = true := by
  unfold noWildChars lowerChars at *
  rw [List.all_map]
  rw [List.all_eq_true] at h ⊢
  intro c hc
  have hcw := h c hc
  simp only [Bool.not_eq_true', Bool.or_eq_false_iff, beq_eq_false_iff_ne] at hcw
  simp only [Function.comp_apply, Bool.not_eq_true', Bool.or_eq_false_iff,
    beq_eq_false_iff_ne]
  exact ⟨lowerChar_ne c '%' (by decide) hcw.1, lowerChar_ne c '_' (by decide) hcw.2⟩

theorem likeMatch_pct_any (t : Chars) : likeMatch ['%'] t = true := by
  induction t with
  | nil => simp [likeMatch]
  | cons c ts ih =>
    rw [likeMatch]
    simp [ih, likeMatch]

theorem likeMatch_append_pct (p : Chars) (hw : noWildChars p = true) (t : Chars) :
    likeMatch (p ++ ['%']) t = startsWithChars p t := by
  induction p generalizing t with
  | nil => simp [likeMatch_pct_any, startsWithChars]
  | cons c cs ih =>
    have hw2 := hw
    simp only [noWildChars, List.all_cons, Bool.and_eq_true] at hw2
    have hcs : ¬ c = '%' ∧ ¬ c = '_' := by
      have h1 := hw2.1
      simp at h1
      exact h1
    cases t with
    | nil =>
      rw [show (c :: cs) ++ ['%'] = c :: (cs ++ ['%']) from rfl, likeMatch]
      rw [if_neg hcs.1]
      rfl
    | cons d ds =>
      rw [show (c :: cs) ++ ['%'] = c :: (cs ++ ['%']) from rfl, likeMatch]
      rw [if_neg hcs.1]
      simp only [startsWithChars]
      rw [ih hw2.2]
      simp [hcs.2]

theorem likeMatch_substr (p : Chars) (hw : noWildChars p = true) (t : Chars) :
    likeMatch ('%' :: (p ++ ['%'])) t = substrChars p t := by
  induction t with
  | nil =>
    rw [likeMatch, if_pos rfl, likeMatch_append_pct p hw]
    simp [substrChars]
  | cons d ds ih =>
    rw [likeMatch, if_pos rfl, likeMatch_append_pct p hw]
    simp only [substrChars]
    rw [ih]

/-- On wildcard-free patterns the SQL LIKE condition is exactly the
case-insensitive substring test that `rowMatches` performs. -/
theorem likeContains_eq_includes (v t : String) (hw : noWildChars v.data = true) :
    likeContains v t = jsIncludes (lowerStr t) (lowerStr v) := by
  unfold likeContains jsIncludes
  simp only [List.cons_append]
  rw [likeMatch_substr _ (noWild_lower _ hw)]
  rfl

theorem jsGet_eq_some_of_mem_nodup (f : Filters) (kv : String × String)
    (hnd : (f.map (·.1)).Nodup) (hm : kv ∈ f) : jsGet f kv.1 = some kv.2 := by
  induction f with
  | nil => cases hm
  | cons p t ih =>
    simp only [List.map_cons, List.nodup_cons] at hnd
    rcases List.mem_cons.mp hm with h | h
    · subst h
      unfold jsGet
      rw [List.find?_cons_of_pos _ (by simp)]
      rfl
    · have hne : ¬ p.1 = kv.1 := by
        intro he
        apply hnd.1
        rw [he]
        exact List.mem_map.mpr ⟨kv, h, rfl⟩
      unfold jsGet at ih ⊢
      rw [List.find?_cons_of_neg _ (by simp [hne])]
      exact ih hnd.2 h

theorem mem_of_jsGet_some (f : Filters) (c v : String) (h : jsGet f c = some v) :
    (c, v) ∈ f := by
  unfold jsGet at h
  cases hf : f.find? (fun p => p.1 == c) with
  | none => rw [hf] at h; cases h
  | some q =>
    rw [hf] at h
    have hq1 : q.1 = c := by simpa using List.find?_some hf
    have hq2 : q.2 = v := by simpa using h
    have hm := List.mem_of_find?_eq_some hf
    have hqc : q = (c, v) := Prod.ext_iff.mpr ⟨hq1, hq2⟩
    rw [← hqc]
    exact hm

theorem mem_buildWhere (f : Filters) (cv : String × String) :
    cv ∈ buildWhere f ↔
      cv.1 ∈ COLS ∧ jsGet f cv.1 = some cv.2 ∧ cv.2 ≠ "" ∧ jsTrim cv.2 ≠ "" := by
  unfold buildWhere
  rw [List.mem_filterMap]
  constructor
  · rintro ⟨c, hc, hgc⟩
    cases hg : jsGet f c with
    | none =>
      rw [hg] at hgc
      simp at hgc
    | some v =>
      rw [hg] at hgc
      dsimp only at hgc
      by_cases hcond : v ≠ "" ∧ jsTrim v ≠ ""
      · rw [if_pos hcond] at hgc
        have hcv : cv = (c, v) := by
          cases hgc
          rfl
        rw [hcv]
        exact ⟨hc, hg, hcond.1, hcond.2⟩
      · rw [if_neg hcond] at hgc
        cases hgc
  · rintro ⟨h1, h2, h3, h4⟩
    refine ⟨cv.1, h1, ?_⟩
    rw [h2]
    dsimp only
    rw [if_pos ⟨h3, h4⟩]

/-- Patterns under which the two adapters' filter semantics coincide:
empty, or non-blank after trimming and free of LIKE wildcards. -/
abbrev goodPattern (v : String) : Prop :=
  v = "" ∨ (jsTrim v ≠ "" ∧ noWildChars v.data = true)

theorem ne_empty_of_trim (v : String) (h : jsTrim v ≠ "") : v ≠ "" := by
  intro he
  subst he
  exact h (by decide)

/-- The adapters decide membership identically on good patterns over known
columns. -/
theorem remote_eq_local_matches (f : Filters) (r : Row)
    (hnd : (f.map (·.1)).Nodup)
    (hsub : ∀ kv ∈ f, kv.1 ∈ COLS)
    (hgood : ∀ kv ∈ f, goodPattern kv.2) :
    remoteRowMatches f r = rowMatches r f := by
  have hiff : remoteRowMatches f r = true ↔ rowMatches r f = true := by
    unfold remoteRowMatches rowMatches
    rw [List.all_eq_true, List.all_eq_true]
    constructor
    · intro h kv hkv
      rcases hgood kv hkv with hve | ⟨htr, hwild⟩
      · simp [hve]
      · have hvne : kv.2 ≠ "" := ne_empty_of_trim _ htr
        have hget := jsGet_eq_some_of_mem_nodup f kv hnd hkv
        have hmw : (kv.1, kv.2) ∈ buildWhere f :=
          (mem_buildWhere f (kv.1, kv.2)).mpr ⟨hsub kv hkv, hget, hvne, htr⟩
        have hlk := h (kv.1, kv.2) hmw
        rw [likeContains_eq_includes _ _ hwild] at hlk
        simp [hlk]
    · intro h cv hcv
      obtain ⟨h1, h2, h3, h4⟩ := (mem_buildWhere f cv).mp hcv
      have hmem : (cv.1, cv.2) ∈ f := mem_of_jsGet_some f cv.1 cv.2 h2
      have hkv := h (cv.1, cv.2) hmem
      rcases hgood (cv.1, cv.2) hmem with hve | ⟨htr, hwild⟩
      · exact absurd hve h3
      · rw [likeContains_eq_includes _ _ hwild]
        simpa [h3] using hkv
  cases hb : rowMatches r f
  · cases hr : remoteRowMatches f r
    · rfl
    · exact absurd (hiff.mp hr) (by simp [hb])
  · exact hiff.mpr hb

theorem mem_insertLe {α : Type} (le : α → α → Bool) (x a : α) (l : List α) :
    a ∈ insertLe le x l ↔ a = x ∨ a ∈ l := by
  induction l with
  | nil => simp [insertLe]
  | cons y ys ih =>
    unfold insertLe
    by_cases h : le x y
    · simp [h]
    · rw [if_neg h]
      simp only [List.mem_cons, ih]
      tauto

theorem mem_sortLe {α : Type} (le : α → α → Bool) (l : List α) (a : α) :
    a ∈ sortLe le l ↔ a ∈ l := by
  induction l with
  | nil => simp [sortLe]
  | cons x xs ih => simp [sortLe, mem_insertLe, ih]

/-- Every row the Local adapter returns satisfies `rowMatches`. -/
theorem getPage_rows_match (st : Store) (page pageSize : Nat) (sb sd : String)
    (f : Filters) (r : Row)
    (h : r ∈ (getPageFromIDB st page pageSize sb sd f).1) :
    rowMatches r f = true := by
  simp only [getPageFromIDB] at h
  have h1 := List.mem_of_mem_take h
  have h2 := List.mem_of_mem_drop h1
  rw [sortRows, mem_sortLe] at h2
  have h3 := List.of_mem_filter h2
  simpa using h3

/-- Every row the Remote adapter returns satisfies `remoteRowMatches`. -/
theorem execComp_rows_match (table : List Row) (req : CompReq) (r : Row)
    (h : r ∈ execComp table req) : remoteRowMatches req.query r = true := by
  simp only [execComp] at h
  have h1 := List.mem_of_mem_take h
  have h2 := List.mem_of_mem_drop h1
  rw [sortRows, mem_sortLe] at h2
  have h3 := List.of_mem_filter h2
  simpa using h3

/-- A matching row contains every non-empty pattern case-insensitively. -/
theorem rowMatches_contains (f : Filters) (r : Row) (h : rowMatches r f = true) :
    ∀ kv ∈ f, kv.2 ≠ "" →
      jsIncludes (lowerStr (valOf r kv.1)) (lowerStr kv.2) = true := by
  intro kv hkv hne
  unfold rowMatches at h
  have := (List.all_eq_true.mp h) kv hkv
  simpa [hne] using this

/-! ## Export engine analysis -/

theorem length_insertLe {α : Type} (le : α → α → Bool) (x : α) (l : List α) :
    (insertLe le x l).length = l.length + 1 := by
  induction l with
  | nil => rfl
  | cons y ys ih =>
    unfold insertLe
    by_cases h : le x y
    · simp [h]
    · simp [h, ih]

theorem length_sortLe {α : Type} (le : α → α → Bool) (l : List α) :
    (sortLe le l).length = l.length := by
  induction l with
  | nil => rfl
  | cons x xs ih => simp [sortLe, length_insertLe, ih]

theorem mem_insertNew (hs : List String) (k x : String) :
    x ∈ insertNew hs k ↔ x ∈ hs ∨ x = k := by
  unfold insertNew
  by_cases h : k ∈ hs
  · rw [if_pos h]
    constructor
    · exact Or.inl
    · rintro (hx | hx)
      · exact hx
      · rw [hx]; exact h
  · rw [if_neg h]
    simp

theorem mem_foldl_insertNew (ks : List String) (acc : List String) (x : String) :
    x ∈ ks.foldl insertNew acc ↔ x ∈ acc ∨ x ∈ ks := by
  induction ks generalizing acc with
  | nil => simp
  | cons k rest ih =>
    rw [List.foldl_cons, ih, mem_insertNew]
    simp only [List.mem_cons]
    tauto

theorem insertNew_of_mem (hs : List String) (k : String) (h : k ∈ hs) :
    insertNew hs k = hs := by
  unfold insertNew
  rw [if_pos h]

theorem foldl_insertNew_of_sub (ks acc : List String)
    (h : ∀ x ∈ ks, x ∈ acc) : ks.foldl insertNew acc = acc := by
  induction ks with
  | nil => rfl
  | cons k rest ih =>
    rw [List.foldl_cons, insertNew_of_mem acc k (h k (by simp))]
    exact ih (fun x hx => h x (by simp [hx]))

theorem foldl_insertNew_disjoint (e acc : List String) (hnd : e.Nodup)
    (hdisj : ∀ x ∈ e, x ∉ acc) : e.foldl insertNew acc = acc ++ e := by
  induction e generalizing acc with
  | nil => simp
  | cons k rest ih =>
    rw [List.foldl_cons]
    have hk : k ∉ acc := hdisj k (by simp)
    have hins : insertNew acc k = acc ++ [k] := by
      unfold insertNew
      rw [if_neg hk]
    have hd2 : ∀ x ∈ rest, x ∉ acc ++ [k] := by
      intro x hx
      simp only [List.mem_append, List.mem_singleton]
      rintro (hc | hc)
      · exact hdisj x (by simp [hx]) hc
      · exact (List.nodup_cons.mp hnd).1 (hc ▸ hx)
    rw [hins, ih (acc ++ [k]) (List.nodup_cons.mp hnd).2 hd2]
    simp

theorem foldl_insertNew_ext (ks acc : List String) (hnd : acc.Nodup) :
    ∃ extras, ks.foldl insertNew acc = acc ++ extras ∧ (acc ++ extras).Nodup := by
  induction ks generalizing acc with
  | nil => exact ⟨[], by simp, by simpa using hnd⟩
  | cons k rest ih =>
    rw [List.foldl_cons]
    by_cases h : k ∈ acc
    · rw [insertNew_of_mem acc k h]
      exact ih acc hnd
    · have hins : insertNew acc k = acc ++ [k] := by
        unfold insertNew
        rw [if_neg h]
      rw [hins]
      have hnd2 : (acc ++ [k]).Nodup := by
        simp [List.nodup_append, hnd, h]
      obtain ⟨e2, he2, hnd3⟩ := ih (acc ++ [k]) hnd2
      exact ⟨[k] ++ e2, by simpa using he2, by simpa using hnd3⟩

/-- `Array.from(new Set([...BASE_COLS, ...headersSeen]))` returns
`headersSeen` itself whenever `headersSeen` was built by extending
`BASE_COLS` with set insertions. -/
theorem exportHeaders_of_extension (ks : List String) :
    exportHeaders (ks.foldl insertNew COLS) = ks.foldl insertNew COLS := by
  have hCnd : COLS.Nodup := by decide
  obtain ⟨extras, hx, hnd⟩ := foldl_insertNew_ext ks COLS hCnd
  have hnd2 := List.nodup_append.mp hnd
  unfold exportHeaders
  rw [hx, List.foldl_append, show COLS.foldl insertNew [] = COLS from by decide,
    List.foldl_append, foldl_insertNew_of_sub COLS COLS (fun x hx2 => hx2),
    foldl_insertNew_disjoint extras COLS hnd2.2.1
      (fun x hxe hxc => hnd2.2.2 hxc hxe)]

/-- The offline export drain started at page 1 returns every matching row:
from page `p` with `got = (p-1)·2000` rows already taken, it returns the
rest of the sorted matching set. -/
theorem exportIDBLoop_drains (st : Store) (f : Filters) (sb sd : String) :
    ∀ (p got : Nat), 1 ≤ p → got = (p - 1) * 2000 →
      exportIDBLoop st f sb sd
          (sortRows sb sd ((storeRows st).filter (fun r => rowMatches r f))).length
          p got =
        (sortRows sb sd ((storeRows st).filter (fun r => rowMatches r f))).drop
          got := by
  refine exportIDBLoop.induct st f sb sd
    (sortRows sb sd ((storeRows st).filter (fun r => rowMatches r f))).length
    (motive := fun p got => 1 ≤ p → got = (p - 1) * 2000 →
      exportIDBLoop st f sb sd
          (sortRows sb sd ((storeRows st).filter (fun r => rowMatches r f))).length
          p got =
        (sortRows sb sd ((storeRows st).filter (fun r => rowMatches r f))).drop
          got) ?_ ?_ ?_ ?_
  · intro p got h1 h2 hp hgot
    rw [exportIDBLoop, dif_pos h1, dif_pos h2]
    have hbatch : (getPageFromIDB st p 2000 sb sd f).1 =
        ((sortRows sb sd ((storeRows st).filter (fun r => rowMatches r f))).drop
          ((p - 1) * 2000)).take 2000 := rfl
    rw [hbatch] at h2
    simp only [List.length_take, List.length_drop] at h2
    symm
    apply List.drop_eq_nil_of_le
    omega
  · intro p got h1 h2 h3 hp hgot
    rw [exportIDBLoop, dif_pos h1, dif_neg h2, dif_pos h3]
    have hbatch : (getPageFromIDB st p 2000 sb sd f).1 =
        ((sortRows sb sd ((storeRows st).filter (fun r => rowMatches r f))).drop
          ((p - 1) * 2000)).take 2000 := rfl
    rw [hbatch] at h3 ⊢
    rw [← hgot] at h3 ⊢
    apply List.take_of_length_le
    simp only [List.length_take, List.length_drop] at h3 ⊢
    omega
  · intro p got h1 h2 h3 ih hp hgot
    rw [exportIDBLoop, dif_pos h1, dif_neg h2, dif_neg h3]
    have hbatch : (getPageFromIDB st p 2000 sb sd f).1 =
        ((sortRows sb sd ((storeRows st).filter (fun r => rowMatches r f))).drop
          ((p - 1) * 2000)).take 2000 := rfl
    have hblen : ((getPageFromIDB st p 2000 sb sd f).1).length = 2000 := by
      rw [hbatch] at h3 ⊢
      simp only [List.length_take, List.length_drop] at h3 ⊢
      omega
    have hrec := ih (by omega) (by rw [hblen]; omega)
    rw [hrec, hblen, hbatch, ← hgot]
    rw [← List.drop_drop, List.take_append_drop]
  · intro p got h1 hp hgot
    rw [exportIDBLoop, dif_neg h1]
    symm
    apply List.drop_eq_nil_of_le
    omega

/-- The online export drain started at page `p ≥ 1` returns the rest of the
table together with the header set extended by every key observed there. -/
theorem exportRemoteLoop_drains (table : List Row) :
    ∀ (p : Nat) (hs : List String), 1 ≤ p →
      exportRemoteLoop table p hs =
        (table.drop ((p - 1) * 2000),
          addKeys hs (table.drop ((p - 1) * 2000))) := by
  refine exportRemoteLoop.induct table
    (motive := fun p hs => 1 ≤ p →
      exportRemoteLoop table p hs =
        (table.drop ((p - 1) * 2000),
          addKeys hs (table.drop ((p - 1) * 2000)))) ?_ ?_ ?_
  · intro p hs h2 hp
    rw [exportRemoteLoop, dif_pos h2]
    have hnil : table.drop ((p - 1) * 2000) = [] := by
      simp only [List.length_take, List.length_drop] at h2
      apply List.drop_eq_nil_of_le
      omega
    rw [hnil]
    rfl
  · intro p hs h2 h3 hp
    rw [exportRemoteLoop, dif_neg h2, dif_pos h3]
    have htake : (table.drop ((p - 1) * 2000)).take 2000 =
        table.drop ((p - 1) * 2000) := by
      apply List.take_of_length_le
      simp only [List.length_take, List.length_drop] at h3
      simp only [List.length_drop]
      omega
    rw [htake]
  · intro p hs h2 h3 ih hp
    rw [exportRemoteLoop, dif_neg h2, dif_neg h3]
    have hrec := ih (by omega)
    rw [hrec]
    have hlen : ((table.drop ((p - 1) * 2000)).take 2000).length = 2000 := by
      simp only [List.length_take, List.length_drop] at h3 ⊢
      omega
    have hp2 : (p + 1 - 1) * 2000 = (p - 1) * 2000 + 2000 := by omega
    have hsplit : (table.drop ((p - 1) * 2000)).take 2000 ++
        table.drop ((p - 1) * 2000 + 2000) = table.drop ((p - 1) * 2000) := by
      rw [← List.drop_drop, List.take_append_drop]
    simp only [Prod.mk.injEq]
    constructor
    · rw [hp2, hsplit]
    · rw [hp2]
      have haddk : addKeys hs ((table.drop ((p - 1) * 2000)).take 2000 ++
          table.drop ((p - 1) * 2000 + 2000)) =
          addKeys (addKeys hs ((table.drop ((p - 1) * 2000)).take 2000))
            (table.drop ((p - 1) * 2000 + 2000)) := by
        unfold addKeys
        rw [List.foldl_append]
      rw [← haddk, hsplit]

theorem addRowKeys_eq (hs : List String) (r : Row) :
    addRowKeys hs r = (r.map (·.1)).foldl insertNew hs := by
  unfold addRowKeys
  rw [List.foldl_map]

theorem addKeys_eq_foldl (batch : List Row) (hs : List String) :
    addKeys hs batch =
      ((batch.map (fun r => r.map (·.1))).flatten).foldl insertNew hs := by
  induction batch generalizing hs with
  | nil => rfl
  | cons r rest ih =>
    rw [show addKeys hs (r :: rest) = addKeys (addRowKeys hs r) rest from rfl, ih,
      List.map_cons, List.flatten_cons, List.foldl_append, addRowKeys_eq]

/-- `handleDownloadExcelOffline` in closed form: one normalized output row
per matching stored row, and exactly the known schema as headers (the
offline branch never extends `headersSeen`). -/
theorem handleDownloadExcelOffline_eq (st : Store) (f : Filters)
    (sb sd : String) :
    handleDownloadExcelOffline st f sb sd =
      { headers := COLS
        sheet :=
          (sortRows sb sd ((storeRows st).filter (fun r => rowMatches r f))).map
            (normalizeRow COLS) } := by
  have hM : getCountFromIDB st f =
      (sortRows sb sd ((storeRows st).filter (fun r => rowMatches r f))).length := by
    unfold getCountFromIDB
    rw [foldl_count]
    unfold sortRows
    rw [length_sortLe]
    simp
  have hdrain := exportIDBLoop_drains st f sb sd 1 0 (by norm_num) (by norm_num)
  simp only [handleDownloadExcelOffline]
  rw [hM, hdrain, List.drop_zero, show exportHeaders COLS = COLS from by decide]

/-- `handleDownloadExcelRemote` in closed form: one normalized output row
per row of the remote matching set, with headers `COLS` extended by every
observed key. -/
theorem handleDownloadExcelRemote_eq (table : List Row) :
    handleDownloadExcelRemote table =
      { headers := addKeys COLS table
        sheet := table.map (normalizeRow (addKeys COLS table)) } := by
  have hdrain := exportRemoteLoop_drains table 1 COLS (by norm_num)
  rw [show (1 - 1) * 2000 = 0 from rfl, List.drop_zero] at hdrain
  have hH : exportHeaders (addKeys COLS table) = addKeys COLS table := by
    rw [addKeys_eq_foldl]
    exact exportHeaders_of_extension _
  simp only [handleDownloadExcelRemote]
  rw [hdrain]
  dsimp only
  rw [hH]

/-! # Claims -/

/-- **C10.** For every Local Cache Store state and every filter set, the
`totalCount` field returned by `getPageFromIDB` equals the value returned by
`getCountFromIDB` on the same state with the same filters — both count the
stored rows satisfying `rowMatches` — regardless of page, pageSize, or sort
parameters. -/
theorem getPage_totalCount_eq_getCount (st : Store) (page pageSize : Nat)
    (sortBy sortDir : String) (filters : Filters) :
    (getPageFromIDB st page pageSize sortBy sortDir filters).2 =
      getCountFromIDB st filters ∧
    getCountFromIDB st filters =
      ((storeRows st).filter (fun r => rowMatches r filters)).length := by
  constructor
  · simp [getPageFromIDB, getCountFromIDB, foldl_count]
  · simp [getCountFromIDB, foldl_count]

/-- **C3.** `fetchPage` returns at most `pageSize` rows, for the Local
adapter (`getPageFromIDB`: slice of the sorted matching set) and for the
Remote adapter (`/comp` via SQL `LIMIT`) alike. -/
theorem fetchPage_length_le_pageSize (st : Store) (table : List Row)
    (page pageSize : Nat) (sortBy sortDir : String) (filters : Filters)
    (req : CompReq) :
    ((getPageFromIDB st page pageSize sortBy sortDir filters).1).length ≤ pageSize ∧
      (execComp table req).length ≤ req.pageSize := by
  constructor
  · simp only [getPageFromIDB]
    exact List.length_take_le _ _
  · simp only [execComp]
    exact List.length_take_le _ _

/-- **C2.** A `sortBy` outside the known-column allow-list is replaced by
the fixed default `Company_Name`: the validated column is the default, the
interpolated SQL text is exactly the one built for `Company_Name`, and the
query result is the one sorted by the default column — never a failure, and
the unknown name is never spliced into the query string. -/
theorem sortBy_fallback (table : List Row) (req : CompReq)
    (h : req.sortBy ∉ COLS) :
    validSortBy req.sortBy = "Company_Name" ∧
      compSqlText req = compSqlText { req with sortBy := "Company_Name" } ∧
      execComp table req = execComp table { req with sortBy := "Company_Name" } := by
  have hv : validSortBy req.sortBy = "Company_Name" := by
    simp [validSortBy, h]
  have hd : validSortBy "Company_Name" = "Company_Name" := by
    simp [validSortBy]
  refine ⟨hv, ?_, ?_⟩
  · simp [compSqlText, hv, hd]
  · simp [execComp, hv, hd]

/-- Witness for C2 at the spec's own example `sortColumn = "DROP TABLE"`. -/
theorem sortBy_fallback_witness :
    ("DROP TABLE" ∉ COLS) ∧
      (validSortBy "DROP TABLE" = "Company_Name" ∧
        compSqlText ⟨1, 20, "DROP TABLE", "asc", []⟩ =
          compSqlText ⟨1, 20, "Company_Name", "asc", []⟩ ∧
        execComp [] ⟨1, 20, "DROP TABLE", "asc", []⟩ =
          execComp [] ⟨1, 20, "Company_Name", "asc", []⟩) :=
  ⟨by decide, sortBy_fallback [] ⟨1, 20, "DROP TABLE", "asc", []⟩ (by decide)⟩

/-- **C7 (amended).** The derived Row Key is independent of the ordinal
position **when the row carries an `id` or a `Folio_Dpid` field**; rows with
neither fall back to a composite that embeds the batch ordinal, so their
keys are not stable across positions (see the counterexample). -/
theorem makeKey_ordinal_independent (r : Row)
    (h : (jsGet r "id").isSome ∨ (jsGet r "Folio_Dpid").isSome) (i j : Nat) :
    makeKey r i = makeKey r j := by
  cases hid : jsGet r "id" with
  | some v => simp [makeKey, hid]
  | none =>
    cases hfd : jsGet r "Folio_Dpid" with
    | some v => simp [makeKey, hid, hfd]
    | none => simp [hid, hfd] at h

/-- Witness for C7 (amended): a row keyed by `Folio_Dpid` gets the same key
at ordinals 0 and 5. -/
theorem makeKey_ordinal_independent_witness :
    ((jsGet [("Folio_Dpid", "F001")] "id").isSome ∨
        (jsGet [("Folio_Dpid", "F001")] "Folio_Dpid").isSome) ∧
      makeKey [("Folio_Dpid", "F001")] 0 = makeKey [("Folio_Dpid", "F001")] 5 :=
  ⟨by decide, makeKey_ordinal_independent _ (by decide) 0 5⟩

/-- Counterexample to C7 as stated: a row with neither `id` nor
`Folio_Dpid` gets different keys at ordinals 0 and 1, so the Row Key is not
stable across independent fetches for every row content. -/
theorem makeKey_ordinal_counterexample :
    makeKey [("Company_Name", "Acme"), ("Investor_First_Name", "A"),
        ("Investor_Last_Name", "B")] 0 ≠
      makeKey [("Company_Name", "Acme"), ("Investor_First_Name", "A"),
        ("Investor_Last_Name", "B")] 1 := by
  decide

/-- **C4 (amended).** The `/comp` parameter normalization is a total
function: `sortDir` always normalizes to exactly `ASC` or `DESC` (`ASC` for
unrecognized input), missing `pageSize`/`page` default to 20 and 1, and
**whenever `parseInt` finds a number** the results are clamped into
`[1, 10000]` and `≥ 1` respectively.  Non-numeric input, however, yields
`NaN` (modelled `none`), which the clamps propagate instead of clamping
(see the counterexample). -/
theorem plan_normalization (rawPS rawPage rawDir : Option String) :
    (normSortDir rawDir = "ASC" ∨ normSortDir rawDir = "DESC") ∧
      (rawDir.map lowerStr ≠ some "desc" → normSortDir rawDir = "ASC") ∧
      normPageSize none = some 20 ∧
      normPage none = some 1 ∧
      (∀ n : Int, normPageSize rawPS = some n → 1 ≤ n ∧ n ≤ 10000) ∧
      (∀ n : Int, normPage rawPage = some n → 1 ≤ n) := by
  refine ⟨?_, ?_, by decide, by decide, ?_, ?_⟩
  · by_cases h : rawDir.map lowerStr = some "desc" <;> simp [normSortDir, h]
  · intro h; simp [normSortDir, h]
  · intro n hn
    cases hp : parseIntJS (rawPS.getD "20") with
    | none => simp [normPageSize, jsMin, jsMax, hp] at hn
    | some m =>
      simp [normPageSize, jsMin, jsMax, hp] at hn
      omega
  · intro n hn
    cases hp : parseIntJS (rawPage.getD "1") with
    | none => simp [normPage, jsMax, hp] at hn
    | some m =>
      simp [normPage, jsMax, hp] at hn
      omega

/-- Witness for C4 (amended) at `pageSize = "57"`. -/
theorem plan_normalization_witness :
    normPageSize (some "57") = some 57 ∧ (1 ≤ (57 : Int) ∧ (57 : Int) ≤ 10000) :=
  ⟨by decide, (plan_normalization (some "57") none none).2.2.2.2.1 57 (by decide)⟩

/-- Counterexample to C4 as stated: for the non-numeric input
`pageSize = "abc"` (and `page = "xyz"`), `parseInt` yields `NaN` and
`Math.min(Math.max(NaN, 1), 10000)` is again `NaN` — the resulting
descriptor satisfies no clamp, so normalization is not total in the claimed
sense. -/
theorem plan_normalization_counterexample :
    normPageSize (some "abc") = none ∧ normPage (some "xyz") = none ∧
      ¬ ∃ n : Int, normPageSize (some "abc") = some n ∧ 1 ≤ n ∧ n ≤ 10000 := by
  refine ⟨by decide, by decide, ?_⟩
  rintro ⟨n, hn, -⟩
  rw [show normPageSize (some "abc") = none from by decide] at hn
  cases hn

/-- **C6.** `upsert` is idempotent: for every batch of rows and every prior
Local Cache Store state (whose keys are unique, the IndexedDB store
invariant), running `upsertRows(rows)` twice leaves the store with exactly
the same contents as running it once. -/
theorem upsertRows_idempotent (st : Store) (rows : List Row)
    (h : (storeKeys st).Nodup) :
    upsertRows (upsertRows st rows) rows = upsertRows st rows := by
  cases hr : rows.isEmpty with
  | true => simp [upsertRows, hr]
  | false =>
    simp only [upsertRows, hr, Bool.false_eq_true, if_false]
    exact idbReplay_idempotent st (keyedRecords rows) h

/-- Witness for C6 on a two-row batch over a one-entry store. -/
theorem upsertRows_idempotent_witness :
    (storeKeys [("z", [("Case", "1")])]).Nodup ∧
      upsertRows
          (upsertRows [("z", [("Case", "1")])]
            [[("Folio_Dpid", "F1")], [("Company_Name", "Acme")]])
          [[("Folio_Dpid", "F1")], [("Company_Name", "Acme")]] =
        upsertRows [("z", [("Case", "1")])]
          [[("Folio_Dpid", "F1")], [("Company_Name", "Acme")]] :=
  ⟨by decide, upsertRows_idempotent _ _ (by decide)⟩

/-- **C8.** When a per-page fetch fails (count or data phase), the page-load
effect empties the visible rows, zeroes the total count and surfaces a
non-empty error message, while the Page Result Cache keeps every entry it
had; a subsequent request for an already-cached key is answered from the
cache, identically whatever the adapter would have returned. -/
theorem pageError_clears_view_keeps_cache (st : PageState) (key e : String)
    (hmiss : cacheLookup st.pageCache key = none) :
    (loadPage st false key (.error e)).rows = [] ∧
      (loadPage st false key (.error e)).totalCount = 0 ∧
      (loadPage st false key (.error e)).errorMsg ≠ "" ∧
      (loadPage st false key (.error e)).pageCache = st.pageCache ∧
      (∀ k2 rs, cacheLookup st.pageCache k2 = some rs →
        ∀ f1 f2 : Except String (Nat × List Row),
          loadPage (loadPage st false key (.error e)) false k2 f1 =
            loadPage (loadPage st false key (.error e)) false k2 f2 ∧
          (loadPage (loadPage st false key (.error e)) false k2 f1).rows = rs) := by
  have hcond : ¬ ((false = false) ∧ (cacheLookup st.pageCache key).isSome) := by
    simp [hmiss]
  have hstep : loadPage st false key (.error e) =
      { rows := []
        totalCount := 0
        errorMsg := if e == "" then "Failed to fetch" else e
        pageCache := st.pageCache } := by
    unfold loadPage
    rw [if_neg hcond]
  rw [hstep]
  refine ⟨rfl, rfl, ?_, rfl, ?_⟩
  · show (if e == "" then "Failed to fetch" else e) ≠ ""
    by_cases he : e = ""
    · rw [if_pos (by simp [he])]
      decide
    · rw [if_neg (by simp [he])]
      exact he
  · intro k2 rs hk2 f1 f2
    constructor
    · simp [loadPage, hk2]
    · simp [loadPage, hk2]


/-- **C1 (amended).** For every filter set over the known columns whose
patterns are each empty or non-blank after trimming and contain no LIKE
wildcard (`%`, `_`), the two adapters decide row membership identically,
and every row either adapter returns contains each non-empty pattern as a
case-insensitive substring of that column's value; empty patterns impose no
constraint.  Whitespace-only patterns (and wildcard patterns) break the
correspondence — see the counterexample. -/
theorem filter_semantics_agree (f : Filters)
    (hnd : (f.map (·.1)).Nodup)
    (hsub : ∀ kv ∈ f, kv.1 ∈ COLS)
    (hgood : ∀ kv ∈ f, goodPattern kv.2) :
    (∀ r : Row, remoteRowMatches f r = rowMatches r f) ∧
      (∀ (st : Store) (page pageSize : Nat) (sb sd : String) (r : Row),
        r ∈ (getPageFromIDB st page pageSize sb sd f).1 →
          ∀ kv ∈ f, kv.2 ≠ "" →
            jsIncludes (lowerStr (valOf r kv.1)) (lowerStr kv.2) = true) ∧
      (∀ (table : List Row) (req : CompReq) (r : Row), req.query = f →
        r ∈ execComp table req →
          ∀ kv ∈ f, kv.2 ≠ "" →
            jsIncludes (lowerStr (valOf r kv.1)) (lowerStr kv.2) = true) := by
  refine ⟨fun r => remote_eq_local_matches f r hnd hsub hgood, ?_, ?_⟩
  · intro st page pageSize sb sd r hr
    exact rowMatches_contains f r (getPage_rows_match st page pageSize sb sd f r hr)
  · intro table req r hq hr
    have h1 := execComp_rows_match table req r hr
    rw [hq, remote_eq_local_matches f r hnd hsub hgood] at h1
    exact rowMatches_contains f r h1

/-- Witness for C1 (amended): pattern `"ab"` on `Address`, row value
`"xABy"` — both adapters agree and the returned row contains the pattern
case-insensitively. -/
theorem filter_semantics_agree_witness :
    remoteRowMatches [("Address", "ab")] [("Address", "xABy")] =
        rowMatches [("Address", "xABy")] [("Address", "ab")] ∧
      jsIncludes (lowerStr (valOf [("Address", "xABy")] "Address"))
        (lowerStr "ab") = true := by
  have h := filter_semantics_agree [("Address", "ab")] (by decide) (by decide)
    (by decide)
  refine ⟨h.1 _, ?_⟩
  exact h.2.1 [("k1", [("Address", "xABy")])] 1 20 "Company_Name" "asc"
    [("Address", "xABy")] (by decide) ("Address", "ab") (by decide) (by decide)

/-- Counterexample to C1 as stated: the whitespace-only pattern `" "` is
non-empty but blank after trimming; `buildWhere` drops it while
`rowMatches` enforces it, so for the same filter set the Remote adapter
returns a row that the Local adapter rejects — the adapters do not decide
membership identically, and a blank pattern does impose a constraint
locally. -/
theorem filter_semantics_counterexample :
    remoteRowMatches [("Address", " ")] [("Address", "x")] = true ∧
      rowMatches [("Address", "x")] [("Address", " ")] = false ∧
      execComp [[("Address", "x")]]
          ⟨1, 20, "Company_Name", "asc", [("Address", " ")]⟩ =
        [[("Address", "x")]] ∧
      (getPageFromIDB [("k1", [("Address", "x")])] 1 20 "Company_Name" "asc"
          [("Address", " ")]).1 = [] := by
  decide

/-- **C5.** For a remote source with exactly 23,000 rows matching the
filters and chunk size 10,000, sync performs exactly 3 chunk fetches
returning 10,000, 10,000 and 3,000 rows, terminates successfully with
`fetched = total = 23000`; and, in general, the chunk loop terminates only
when a chunk returns fewer rows than requested or `fetched` reaches
`total`. -/
theorem sync_23000_three_chunks (g : Nat → List Row)
    (hf : ∀ p, (g p).length = min 10000 (23000 - (p - 1) * 10000)) :
    ((handleSyncToDevice g 23000).2.1 = 23000 ∧
      (handleSyncToDevice g 23000).2.2 = [10000, 10000, 3000] ∧
      ((handleSyncToDevice g 23000).2.2).length = 3) ∧
    (∀ (g2 : Nat → List Row) (total : Nat) (s0 : Store) (f0 p0 : Nat)
        (log : List Nat),
      total ≤ (syncLoop g2 total s0 f0 p0 log).2.1 ∨
        ∃ last, ((syncLoop g2 total s0 f0 p0 log).2.2).getLast? = some last ∧
          last < 10000) := by
  have e1 : (g 1).length = 10000 := by rw [hf]; norm_num
  have e2 : (g 2).length = 10000 := by rw [hf]; norm_num
  have e3 : (g 3).length = 3000 := by rw [hf]; norm_num
  have s1 : syncLoop g 23000 [] 0 1 [] =
      syncLoop g 23000 (upsertRows [] (g 1)) 10000 2 [10000] := by
    rw [syncLoop, dif_pos (by norm_num : (0 : Nat) < 23000),
      dif_neg (by simp [e1] : ¬ (g 1).length = 0),
      dif_neg (by simp [e1] : ¬ (g 1).length < 10000)]
    simp [e1]
  have s2 : syncLoop g 23000 (upsertRows [] (g 1)) 10000 2 [10000] =
      syncLoop g 23000 (upsertRows (upsertRows [] (g 1)) (g 2)) 20000 3
        [10000, 10000] := by
    rw [syncLoop, dif_pos (by norm_num : (10000 : Nat) < 23000),
      dif_neg (by simp [e2] : ¬ (g 2).length = 0),
      dif_neg (by simp [e2] : ¬ (g 2).length < 10000)]
    simp [e2]
  have s3 : syncLoop g 23000 (upsertRows (upsertRows [] (g 1)) (g 2)) 20000 3
      [10000, 10000] =
      (upsertRows (upsertRows (upsertRows [] (g 1)) (g 2)) (g 3), 23000,
        [10000, 10000, 3000]) := by
    rw [syncLoop, dif_pos (by norm_num : (20000 : Nat) < 23000),
      dif_neg (by simp [e3] : ¬ (g 3).length = 0),
      dif_pos (by simp [e3] : (g 3).length < 10000)]
    simp [e3]
  have hrun : handleSyncToDevice g 23000 =
      (upsertRows (upsertRows (upsertRows [] (g 1)) (g 2)) (g 3), 23000,
        [10000, 10000, 3000]) := by
    unfold handleSyncToDevice
    rw [if_neg (by norm_num : ¬ (23000 = 0)), s1, s2, s3]
  refine ⟨?_, fun g2 total s0 f0 p0 log => syncLoop_exit g2 total s0 f0 p0 log⟩
  rw [hrun]
  exact ⟨rfl, rfl, rfl⟩

/-- Witness for C5: a remote source delivering exactly the paged windows of
a 23,000-row matching set. -/
theorem sync_23000_three_chunks_witness :
    (handleSyncToDevice
        (fun p => List.replicate (min 10000 (23000 - (p - 1) * 10000))
          ([] : Row)) 23000).2.1 = 23000 ∧
      (handleSyncToDevice
          (fun p => List.replicate (min 10000 (23000 - (p - 1) * 10000))
            ([] : Row)) 23000).2.2 = [10000, 10000, 3000] :=
  ⟨((sync_23000_three_chunks _ (fun _ => List.length_replicate _ _)).1).1,
    ((sync_23000_three_chunks _ (fun _ => List.length_replicate _ _)).1).2.1⟩

/-- **C9 (amended).** Both export branches drain their adapter in 2000-row
chunks until a short chunk and produce one output row per accumulated row,
with values missing from a row rendered as the empty string, and they never
mutate the Local Cache Store or the Page Result Cache.  In **remote** mode
the headers are the known schema columns followed by exactly the extra keys
observed in fetched rows; in **offline** mode, however, the headers are
exactly the known schema — extra keys observed offline are dropped (see the
counterexample), contrary to the original claim. -/
theorem export_engine (st : Store) (cache : PageCache) (f : Filters)
    (sb sd : String) (table : List Row) :
    (handleDownloadExcelOffline st f sb sd).headers = COLS ∧
      (handleDownloadExcelOffline st f sb sd).sheet =
        (sortRows sb sd ((storeRows st).filter (fun r => rowMatches r f))).map
          (normalizeRow COLS) ∧
      (∃ extras, (handleDownloadExcelRemote table).headers = COLS ++ extras ∧
        (COLS ++ extras).Nodup) ∧
      (∀ k, k ∈ (handleDownloadExcelRemote table).headers ↔
        k ∈ COLS ∨ ∃ r ∈ table, k ∈ r.map (·.1)) ∧
      (handleDownloadExcelRemote table).sheet =
        table.map (normalizeRow (handleDownloadExcelRemote table).headers) ∧
      (∀ (headers : List String) (r : Row), normalizeRow headers r =
        headers.map (fun h => (h, (jsGet r h).getD ""))) ∧
      (∀ offline : Bool,
        (exportRun st cache offline f sb sd table).2 = (st, cache)) := by
  rw [handleDownloadExcelOffline_eq, handleDownloadExcelRemote_eq]
  dsimp only
  refine ⟨rfl, rfl, ?_, ?_, rfl, fun headers r => rfl, fun offline => rfl⟩
  · rw [addKeys_eq_foldl]
    obtain ⟨extras, hx, hnd⟩ := foldl_insertNew_ext
      ((table.map (fun r => r.map (·.1))).flatten) COLS (by decide)
    exact ⟨extras, hx, hnd⟩
  · intro k
    rw [addKeys_eq_foldl, mem_foldl_insertNew]
    constructor
    · rintro (hk | hk)
      · exact Or.inl hk
      · right
        obtain ⟨l, hl, hkl⟩ := List.mem_flatten.mp hk
        obtain ⟨r, hr, hrl⟩ := List.mem_map.mp hl
        exact ⟨r, hr, hrl ▸ hkl⟩
    · rintro (hk | ⟨r, hr, hk⟩)
      · exact Or.inl hk
      · right
        exact List.mem_flatten.mpr ⟨r.map (·.1), List.mem_map.mpr ⟨r, hr, rfl⟩, hk⟩

/-- Counterexample to C9 as stated: in offline mode, a stored row carrying
the extra key `"Weird"` is drained and exported, yet the headers are
exactly the known schema — the extra observed key is missing, because the
offline branch never adds observed keys to `headersSeen`. -/
theorem export_offline_extra_key_counterexample :
    (handleDownloadExcelOffline
        [("k1", [("Company_Name", "Acme"), ("Weird", "w")])] [] "Company_Name"
        "asc").headers = COLS ∧
      "Weird" ∉ (handleDownloadExcelOffline
          [("k1", [("Company_Name", "Acme"), ("Weird", "w")])] [] "Company_Name"
          "asc").headers ∧
      (handleDownloadExcelOffline
          [("k1", [("Company_Name", "Acme"), ("Weird", "w")])] [] "Company_Name"
          "asc").sheet.length = 1 ∧
      "Weird" ∈ ([("Company_Name", "Acme"), ("Weird", "w")] : Row).map (·.1) := by
  rw [handleDownloadExcelOffline_eq]
  refine ⟨rfl, ?_, ?_, by decide⟩
  · decide
  · decide

/-- Witness for C8: a failing fetch under a one-entry cache leaves the entry
intact and a follow-up request for it is served from the cache. -/
theorem pageError_clears_view_keeps_cache_witness :
    (loadPage ⟨[[("Case", "0")]], 7, "", [("k1", [[("Case", "1")]])]⟩ false "k2"
        (.error "boom")).pageCache = [("k1", [[("Case", "1")]])] ∧
      (loadPage
          (loadPage ⟨[[("Case", "0")]], 7, "", [("k1", [[("Case", "1")]])]⟩ false "k2"
            (.error "boom"))
          false "k1" (.ok (0, []))).rows = [[("Case", "1")]] := by
  have h := pageError_clears_view_keeps_cache
    ⟨[[("Case", "0")]], 7, "", [("k1", [[("Case", "1")]])]⟩ "k2" "boom" (by decide)
  exact ⟨h.2.2.2.1,
    (h.2.2.2.2 "k1" [[("Case", "1")]] (by decide) (.ok (0, [])) (.error "x")).2⟩

end SDMP
